import Mathlib

/-!
Verification of the Marvin `Query` core (`marvin/tools/query.py`).

Each Python routine the claims depend on is shallowly embedded as an
executable Lean definition; theorems below settle the claims against
these definitions.
-/

set_option maxRecDepth 40000

/-- Word characters as matched by the regex `\b` boundary (ASCII `\w`):
letters, digits and underscore. -/
def isWordChar (c : Char) : Bool := c.isAlphanum || c == '_'

/-- `startsWithChars s k` is true when `k` is a prefix of `s`
(models Python substring matching at position 0). -/
def startsWithChars : List Char → List Char → Bool
  | _, [] => true
  | [], _ :: _ => false
  | c :: cs, k :: ks => c == k && startsWithChars cs ks

/-- `hasSub s k` is true when `k` occurs as a contiguous substring of `s`
(models the Python `in` operator on strings). -/
def hasSub : List Char → List Char → Bool
  | [], k => k.isEmpty
  | s@(_ :: rest), k => startsWithChars s k || hasSub rest k

/-- Substring test on `String`s (Python `in`). -/
def strHasSub (s pat : String) : Bool := hasSub s.data pat.data

/-! ## C1 — `Query._set_defaultparams` and the DAP default adjustment -/

/-- The allowed `return_type` values
(`assert self.return_type in ['cube', 'spaxel', 'maps', 'rss', 'modelcube']`). -/
def allowedReturnTypes : List String := ["cube", "spaxel", "maps", "rss", "modelcube"]

/-- Embedding of `Query._set_defaultparams` (query.py lines 722-758).
`defaults = self.default_params or ['cube.mangaid', 'cube.plateifu']`:
an empty override list is falsy in Python and behaves like `None`.
The `elif` chain extends `defaults` per return type; the `spaxel` and
`rss` branches are `pass`. -/
def setDefaultparams (return_type : Option String)
    (default_params : Option (List String)) : Except String (List String) :=
  let typeOk := match return_type with
    | none => true
    | some rt => allowedReturnTypes.contains rt
  if !typeOk then
    .error "Query return_type must be either cube, spaxel, maps, modelcube, rss"
  else
    let defaults := match default_params with
      | none => ["cube.mangaid", "cube.plateifu"]
      | some [] => ["cube.mangaid", "cube.plateifu"]
      | some l => l
    let defaults :=
      if return_type = some "cube" then defaults ++ ["cube.mangaid", "cube.plateifu"]
      else if return_type = some "spaxel" then defaults
      else if return_type = some "modelcube" then defaults ++ ["bintype.name", "template.name"]
      else if return_type = some "rss" then defaults
      else if return_type = some "maps" then defaults ++ ["bintype.name", "template.name"]
      else defaults
    .ok defaults

/-- Modelled from the spec: the Parameter Catalog's column resolution
(`_param_form_lookup.mapToColumn`, not under `src/`) resolves a qualified
name to its table; per the spec the catalog "maps human-readable field
names ... to fully qualified table-and-column identifiers", so the table
of `t.c` is its qualifier `t`. -/
def tableOf (p : String) : String := String.mk (p.data.takeWhile (fun c => c ≠ '.'))

/-- Embedding of `Query._check_for(..., tables=...)` (query.py lines 839-850):
a table name matches when it occurs in the resolved column's table name. -/
def checkForTables (params : List String) (tables : List String) : Bool :=
  params.any (fun p => tables.any (fun t => strHasSub (tableOf p) t))

/-- The DAP columns added by `Query._set_query_parameters` (query.py line 880). -/
def dapcols : List String := ["spaxelprop.x", "spaxelprop.y", "bintype.name", "template.name"]

/-- Embedding of the default-parameter adjustment in
`Query._set_query_parameters` (query.py lines 875-887): the spaxel
coordinate and bintype/template columns are appended only when some
parameter already resolves to a `spaxelprop`/`modelspaxel` table.
Returns `(params, default_params)` after the adjustment. -/
def adjustDapDefaults (params default_params : List String) :
    List String × List String :=
  if checkForTables params ["spaxelprop", "modelspaxel"] then
    (params ++ dapcols, default_params ++ dapcols)
  else (params, default_params)

/-! ## C2/C3 — `Query._slice_query` -/

/-- Result of `Query._slice_query`: the slice window actually applied to the
query (`query.slice(start, end)`), the recorded served count (`self._count`)
and which warnings were emitted. -/
structure SliceResult where
  qstart : Option Int
  qend : Option Int
  count : Int
  warnTruncated : Bool
  warnReturnAll : Bool
  warnSubset : Bool
deriving DecidableEq, Repr

/-- Python truthiness of an optional integer: `None` and `0` are falsy. -/
def truthy : Option Int → Bool
  | none => false
  | some n => n != 0

/-- Embedding of `Query._slice_query` (query.py lines 509-563).
`if start and end` is a Python truthiness test, so `start = 0` (or `None`)
falls into the `else` arm and `count` becomes `totalcount`. -/
def sliceQuery (qstart qend : Option Int) (totalcount count_threshold limit : Int)
    (return_all : Bool) : SliceResult :=
  let count : Int :=
    if truthy qstart && truthy qend then qend.getD 0 - qstart.getD 0 else totalcount
  if count > count_threshold && !return_all then
    { qstart := some 0, qend := some limit, count := limit - 0,
      warnTruncated := true, warnReturnAll := false, warnSubset := false }
  else if return_all then
    { qstart := none, qend := none, count := count,
      warnTruncated := false, warnReturnAll := true, warnSubset := false }
  else if truthy qstart && truthy qend then
    { qstart := qstart, qend := qend, count := count,
      warnTruncated := false, warnReturnAll := false, warnSubset := true }
  else
    { qstart := qstart, qend := qend, count := count,
      warnTruncated := false, warnReturnAll := false, warnSubset := false }

/-! ## C4 — `Query._check_shortcuts_in_filter`

The Python routine iterates over the registered name shortcuts in order and,
when the shortcut occurs as a substring of the filter (`if key in
self.search_filter`), replaces every whole-word occurrence
(`re.sub(r'\b<key>\b', canonical, filter)`).  Shortcut keys consist of word
characters only, so a `\b<key>\b` match is exactly an occurrence of `key` as
a maximal run of word characters; the substitution is therefore embedded by
tokenizing the text into maximal word runs and separator characters,
replacing each word token equal to the key, and flattening back. -/

/-- Token of the filter text: a maximal run of word characters, or one
separator (non-word) character. -/
inductive Tok where
  | word (w : List Char)
  | sep (c : Char)
deriving DecidableEq, Repr

/-- Flattens a token list back into text. -/
def flattenToks : List Tok → List Char
  | [] => []
  | .word w :: ts => w ++ flattenToks ts
  | .sep c :: ts => c :: flattenToks ts

/-- Splits text into maximal word runs and separator characters. -/
def tokenizeAux : List Char → List Tok
  | [] => []
  | c :: cs =>
    if isWordChar c then
      match tokenizeAux cs with
      | .word w :: ts => .word (c :: w) :: ts
      | ts => .word [c] :: ts
    else .sep c :: tokenizeAux cs

/-- Replaces every word token equal to `key` by the tokenization of `repl`
(the token-level picture of `re.sub(r'\b<key>\b', repl, ·)` for word-only
keys: a whole-word match is a full word token, and because a match is
bounded by non-word characters the spliced replacement never merges with
the surrounding tokens). -/
def substToks (key repl : List Char) : List Tok → List Tok
  | [] => []
  | .word w :: ts => (if w = key then tokenizeAux repl else [.word w]) ++ substToks key repl ts
  | .sep c :: ts => .sep c :: substToks key repl ts

/-- Whole-word substitution on text: `re.sub(r'\b<key>\b', repl, s)` for a
nonempty all-word-character `key`. -/
def substWord (key repl s : List Char) : List Char :=
  flattenToks (substToks key repl (tokenizeAux s))

/-- One iteration of the loop in `Query._check_shortcuts_in_filter`
(query.py lines 819-824): the substitution runs only under the Python
substring guard `if key in self.search_filter`. -/
def shortcutStep (acc : List Char) (kv : List Char × List Char) : List Char :=
  if hasSub acc kv.1 then substWord kv.1 kv.2 acc else acc

/-- Embedding of `Query._check_shortcuts_in_filter` (query.py lines 809-824):
fold the substitution over the registered shortcuts in order. -/
def checkShortcutsInFilter (m : List (List Char × List Char)) (s : List Char) : List Char :=
  m.foldl shortcutStep s

/-- Tests whether `key` occurs as a (whole) word token. -/
def wordOccurs (key : List Char) : List Tok → Bool
  | [] => false
  | .word w :: ts => w == key || wordOccurs key ts
  | .sep _ :: ts => wordOccurs key ts

/-- A token list that does not begin with a word token. -/
def startsOk : List Tok → Prop
  | .word _ :: _ => False
  | _ => True

/-- Canonical token lists: word tokens are nonempty runs of word characters,
separators are non-word characters, and no two word tokens are adjacent.
Exactly the image of `tokenizeAux`. -/
inductive Canon : List Tok → Prop where
  | nil : Canon []
  | sep : ∀ {c : Char} {ts : List Tok}, isWordChar c = false → Canon ts → Canon (.sep c :: ts)
  | word : ∀ {w : List Char} {ts : List Tok}, w ≠ [] → (∀ c ∈ w, isWordChar c = true) →
      startsOk ts → Canon ts → Canon (.word w :: ts)

/-- A registered shortcut key: a nonempty run of word characters (so that the
interpolated regex `\b<key>\b` matches it literally as a whole word). -/
@[reducible] def wfShortcutKey (k : List Char) : Prop :=
  k ≠ [] ∧ ∀ c ∈ k, isWordChar c = true

/-- Modelled from the spec: well-formedness of the shortcut catalog
(`_param_form_lookup._nameShortcuts`, data not under `src/`).  Keys are
word-only tokens and canonical replacement values contain no registered
shortcut as a whole word — per the spec, `expandShortcut` "-> canonical
name (identity if no shortcut registered)". -/
def wfShortcuts (m : List (List Char × List Char)) : Prop :=
  (∀ kv ∈ m, wfShortcutKey kv.1) ∧
  (∀ kv ∈ m, ∀ kv2 ∈ m, wordOccurs kv2.1 (tokenizeAux kv.2) = false)

/-! ## C5 — `Query._check_history` -/

/-- A row of the query table of the history schema. -/
structure HistoryRecord where
  sql : String
  release : String
  searchfilter : String
  count : Option Int
  n_run : Nat
  return_params : String
deriving DecidableEq, Repr

/-- The lookup key used by `_check_history`: compiled SQL text and release
(`filter(sqlcol == rawsql, sqlcol.class_.release == self.release)`). -/
def keyMatches (r : HistoryRecord) (sql release : String) : Bool :=
  r.sql == sql && r.release == release

/-- Embedding of SQLAlchemy `one_or_none`: none, the single match, or an
error when several rows match. -/
def oneOrNone (db : List HistoryRecord) (sql release : String) :
    Except String (Option HistoryRecord) :=
  match db.filter (fun r => keyMatches r sql release) with
  | [] => .ok none
  | [r] => .ok (some r)
  | _ => .error "MultipleResultsFound"

/-- Embedding of `Query._check_history` (query.py lines 472-507) acting on
the history table `db`.  With `check_only` the table is left unchanged;
otherwise a missing record is inserted with `n_run = 1` and an existing
record has `n_run` incremented by one.  Records are only added or updated,
never removed. -/
def checkHistory (db : List HistoryRecord) (sql release searchfilter returns : String)
    (totalcount : Option Int) (check_only : Bool) : Except String (List HistoryRecord) :=
  match oneOrNone db sql release with
  | .error e => .error e
  | .ok qm =>
    if check_only then .ok db
    else match qm with
      | none => .ok (db ++ [⟨sql, release, searchfilter, totalcount, 1, returns⟩])
      | some _ => .ok (db.map (fun r =>
          if keyMatches r sql release then { r with n_run := r.n_run + 1 } else r))

/-! ## C6 — `Query._add_pipeline` / `Query._get_pipe_info` -/

/-- The slice of query state `_add_pipeline` inspects and extends: the
rendered from-clause (`str(query._from_obj[0])`), the compiled statement
text (`str(query.statement.compile())`), and which pipeline joins/filters
have been attached. -/
structure PipeQueryState where
  fromClause : String
  stmtText : String
  drpJoined : Bool
  dapJoined : Bool
  drpFilterPk : Option Nat
  dapFilterPk : Option Nat
deriving DecidableEq, Repr

/-- Embedding of `Query._table_in_query` (query.py lines 941-954): a
substring test of the table name against the rendered from-clause. -/
def tableInQuery (st : PipeQueryState) (name : String) : Bool :=
  strHasSub st.fromClause name

/-- The presence test of `Query._get_pipe_info` (query.py lines 1031-1034):
`_table_in_query('cube') or 'cube' in str(query.statement.compile())` for
DRP, and the same with `'file'` for DAP. -/
def pipeTableMentioned (st : PipeQueryState) (pipename : String) : Bool :=
  if pipename = "drp" then tableInQuery st "cube" || strHasSub st.stmtText "cube"
  else tableInQuery st "file" || strHasSub st.stmtText "file"

/-- Embedding of `Query._get_pipe_info` (query.py lines 1021-1048): when the
pipeline's table is mentioned, the pipeline-info row whose version matches
the active version is looked up (`drpPk`/`dapPk` stand for the primary keys
of those rows); otherwise `None` is returned. -/
def getPipeInfo (drpPk dapPk : Nat) (st : PipeQueryState) (pipename : String) : Option Nat :=
  if pipeTableMentioned st pipename then
    (if pipename = "drp" then some drpPk else some dapPk)
  else none

/-- Embedding of `Query._add_pipeline` (query.py lines 1002-1019): both
pipe-info lookups run first; then for each pipeline with a row found, the
aliased pipeline-info table is joined and an equality filter on its primary
key is attached.  A `None` lookup is silently skipped. -/
def addPipeline (drpPk dapPk : Nat) (st : PipeQueryState) : PipeQueryState :=
  let drppipe := getPipeInfo drpPk dapPk st "drp"
  let dappipe := getPipeInfo drpPk dapPk st "dap"
  let st1 := match drppipe with
    | some pk => { st with drpJoined := true, drpFilterPk := some pk }
    | none => st
  match dappipe with
  | some pk => { st1 with dapJoined := true, dapFilterPk := some pk }
  | none => st1

/-! ## C7 — `Query._parse_sql_string` -/

/-- The pieces of a parsed boolean filter that `_parse_sql_string` attaches. -/
structure ParsedFilter where
  params : List (String × String)
  uniqueparams : List String
deriving DecidableEq, Repr

/-- Message of the usage error raised for a non-string filter. -/
def usageErrMsg : String := "Input parameters must be a natural language string!"

/-- Message prefix wrapped around the parser's own error. -/
def syntaxErrPrefix : String := "Your boolean expression contained a syntax error: "

/-- The dynamically typed `search_filter` argument: a string, or any
non-string Python value (described opaquely). -/
inductive FilterInput where
  | str (s : String)
  | nonstring (descr : String)

/-- Embedding of `Query._parse_sql_string` (query.py lines 790-807),
parameterized by the external boolean-search parser.  A non-string filter
is rejected up front; for strings, shortcuts are substituted and the parser
runs; a `BooleanSearchException` is re-raised with the parser's message
embedded. -/
def parseSqlString (m : List (List Char × List Char))
    (parse : String → Except String ParsedFilter) :
    FilterInput → Except String (String × ParsedFilter)
  | .nonstring _ => .error usageErrMsg
  | .str s =>
    let s2 := String.mk (checkShortcutsInFilter m s.data)
    match parse s2 with
    | .error e => .error (syntaxErrPrefix ++ e)
    | .ok p => .ok (s2, p)

/-- A concrete always-failing parser, used to instantiate witnesses. -/
def failParse : String → Except String ParsedFilter :=
  fun _ => .error "Expected end of text at position 7"

/-! ## C8 — `Query._set_mma` and the init dispatch -/

/-- Python exception classes relevant to `_set_mma`: `MarvinError`, or any
other exception class (e.g. `TypeError`, `AssertionError`). -/
inductive PyErr where
  | marvin (msg : String)
  | otherErr (msg : String)
deriving DecidableEq, Repr

/-- The configuration bits `_do_local`/`_do_remote` consult. -/
structure MarvinConfig where
  hasDb : Bool
  hasUrlmap : Bool
deriving DecidableEq, Repr

/-- Mode/origin state after `_set_mma`, recording whether the auto-mode
fallback to remote fired. -/
structure MMAState where
  mode : String
  origin : Option String
  fellBack : Bool
deriving DecidableEq, Repr

/-- Embedding of `Query._do_local` (query.py lines 217-225): without a local
database a `MarvinError` (connectivity-class) is raised. -/
def doLocal (c : MarvinConfig) : Except PyErr (String × String) :=
  if c.hasDb then .ok ("local", "db")
  else .error (.marvin "No local database found.  Query cannot be run in local mode")

/-- Embedding of `Query._do_remote` (query.py lines 227-234). -/
def doRemote (c : MarvinConfig) : Except PyErr (String × String) :=
  if c.hasUrlmap then .ok ("remote", "api")
  else .error (.marvin "No URL Map found.  Cannot make remote query calls!")

/-- Embedding of `Query._set_mma` (query.py lines 200-215): three sequential
`if`s on the current mode (local / remote / auto); in auto mode only a
`MarvinError` from `_do_local` is caught and triggers the single fallback
to `_do_remote`; finally the `assert` on `data_origin` (an
`AssertionError`, not a `MarvinError`). -/
def setMma (c : MarvinConfig) (mode0 : String) : Except PyErr MMAState :=
  let step1 : Except PyErr MMAState :=
    if mode0 = "local" then
      match doLocal c with
      | .ok mo => .ok ⟨mo.1, some mo.2, false⟩
      | .error e => .error e
    else .ok ⟨mode0, none, false⟩
  match step1 with
  | .error e => .error e
  | .ok st1 =>
    let step2 : Except PyErr MMAState :=
      if st1.mode = "remote" then
        match doRemote c with
        | .ok mo => .ok ⟨mo.1, some mo.2, st1.fellBack⟩
        | .error e => .error e
      else .ok st1
    match step2 with
    | .error e => .error e
    | .ok st2 =>
      let step3 : Except PyErr MMAState :=
        if st2.mode = "auto" then
          match doLocal c with
          | .ok mo => .ok ⟨mo.1, some mo.2, false⟩
          | .error (.marvin _) =>
            match doRemote c with
            | .ok mo => .ok ⟨mo.1, some mo.2, true⟩
            | .error e2 => .error e2
          | .error e => .error e
        else .ok st2
      match step3 with
      | .error e => .error e
      | .ok st3 =>
        if st3.origin = some "file" ∨ st3.origin = some "db" ∨ st3.origin = some "api" then
          .ok st3
        else .error (.otherErr "data_origin is not properly set.")

/-- Embedding of the tail of `Query.__init__` (query.py lines 175-184):
after `_set_mma`, a file origin is rejected, a db origin runs the local
compilation (`_init_local_query`, passed in as `initLocal` since it can
raise errors of any class), and an api origin sets up the remote request.
No fallback surrounds this stage. -/
def queryInit (c : MarvinConfig) (mode0 : String) (initLocal : Except PyErr Unit) :
    Except PyErr MMAState :=
  match setMma c mode0 with
  | .error e => .error e
  | .ok st =>
    if st.origin = some "file" then .error (.marvin "Cannot currently query a file")
    else if st.origin = some "db" then
      match initLocal with
      | .ok _ => .ok st
      | .error e => .error e
    else .ok st

/-! ## C9 — `Query._get_percent` / `_get_good_spaxels` / `_get_count_of` -/

/-- Comparison operators of `opdict` (query.py line 41). -/
inductive CompOp where
  | le | ge | gt | lt | ne | eq
deriving DecidableEq, Repr

/-- Applies a comparison operator to integers. -/
def applyOpInt : CompOp → Int → Int → Bool
  | .le, a, b => decide (a ≤ b)
  | .ge, a, b => decide (b ≤ a)
  | .gt, a, b => decide (b < a)
  | .lt, a, b => decide (a < b)
  | .ne, a, b => decide (a ≠ b)
  | .eq, a, b => decide (a = b)

/-- Exact rational value `num / den` (`den` positive throughout), modelling
the numeric values and thresholds the percent rewrite compares. -/
structure Frac where
  num : Int
  den : Int
deriving DecidableEq, Repr

/-- Embeds a row count as a rational. -/
def Frac.ofCount (n : Nat) : Frac := ⟨n, 1⟩

/-- Comparison of rationals by cross-multiplication (valid since
denominators are positive). -/
def applyOpFrac (op : CompOp) (a b : Frac) : Bool :=
  applyOpInt op (a.num * b.den) (b.num * a.den)

/-- The value `(threshold2 / 100) * count1` from `_get_percent`
(`percent = float(value) / 100.` then `percent * bincount.c.goodcount`). -/
def percentOf (t2 : Frac) (c1 : Nat) : Frac := ⟨t2.num * c1, t2.den * 100⟩

/-- One per-element (spaxel) row: its parent file (the group key used by
both subqueries), its bin id (`binid == -1` flags an invalid spaxel) and
the measured value of the filtered field. -/
structure SpaxelRow where
  file_pk : Nat
  binid : Int
  value : Frac
deriving DecidableEq, Repr

/-- The row filter of `_get_good_spaxels` (query.py lines 1119-1142): rows
with `binid != -1`; for a `CleanSpaxelProp` table the filter is skipped
(every row of a clean table is good). -/
def goodRow (isClean : Bool) (r : SpaxelRow) : Bool := isClean || r.binid != -1

/-- The row filter of `_get_count_of` (query.py lines 1144-1174): rows
satisfying the inner condition `fieldExpr op1 threshold1` — with no
condition on the invalid flag. -/
def valPred (op1 : CompOp) (t1 : Frac) (r : SpaxelRow) : Bool :=
  applyOpFrac op1 r.value t1

/-- Number of rows of group `g` satisfying `p`. -/
def countIn (rows : List SpaxelRow) (p : SpaxelRow → Bool) (g : Nat) : Nat :=
  (rows.filter (fun r => p r && r.file_pk == g)).length

/-- Relational semantics of `session.query(file_pk, count(pk)).filter(p).group_by(file_pk)`:
one `(group, count)` row per group having at least one row satisfying `p`. -/
def groupCounts (rows : List SpaxelRow) (p : SpaxelRow → Bool) : List (Nat × Nat) :=
  ((rows.filter p).map (fun r => r.file_pk)).dedup.map (fun g => (g, countIn rows p g))

/-- The `bincount` ("bingood") subquery of `_get_good_spaxels`. -/
def bincountSub (isClean : Bool) (rows : List SpaxelRow) : List (Nat × Nat) :=
  groupCounts rows (goodRow isClean)

/-- The `valcount` ("goodhacount") subquery of `_get_count_of`. -/
def valcountSub (op1 : CompOp) (t1 : Frac) (rows : List SpaxelRow) : List (Nat × Nat) :=
  groupCounts rows (valPred op1 t1)

/-- Group-level semantics of the `_get_percent` rewrite (query.py lines
1176-1215): both subqueries are inner-joined to the main query on the group
key, so a group survives only when it has a row in each; the attached
filter is `op2(count2, percent * count1)`. -/
def npergoodIncluded (isClean : Bool) (op1 : CompOp) (t1 : Frac) (op2 : CompOp) (t2 : Frac)
    (rows : List SpaxelRow) (g : Nat) : Bool :=
  match List.lookup g (bincountSub isClean rows), List.lookup g (valcountSub op1 t1 rows) with
  | some c1, some c2 => applyOpFrac op2 (Frac.ofCount c2) (percentOf t2 c1)
  | _, _ => false

/-- The claim's (and spec §4.5's) second subquery: rows "additionally
satisfying" the inner condition, i.e. counted only when also not flagged
invalid.  Stated from the spec's words for comparison with the code's
`valPred`, which has no invalid-flag condition. -/
def specValPred (op1 : CompOp) (t1 : Frac) (r : SpaxelRow) : Bool :=
  goodRow false r && applyOpFrac op1 r.value t1

/-- Group-level semantics the claim describes: like `npergoodIncluded` but
with the second count restricted to non-invalid rows. -/
def specNpergoodIncluded (op1 : CompOp) (t1 : Frac) (op2 : CompOp) (t2 : Frac)
    (rows : List SpaxelRow) (g : Nat) : Bool :=
  match List.lookup g (bincountSub false rows),
        List.lookup g (groupCounts rows (specValPred op1 t1)) with
  | some c1, some c2 => applyOpFrac op2 (Frac.ofCount c2) (percentOf t2 c1)
  | _, _ => false

/-- The group-by parameters of the rewrite (query.py line 1214): the default
parameters that are not `spaxelprop` columns. -/
def npergoodGroupParams (default_params : List String) : List String :=
  default_params.filter (fun d => !(strHasSub d "spaxelprop"))

/-- Concrete per-element table used in the refutation: group 1 has four
good spaxels of which one satisfies `value > 25`, plus three invalid
(`binid = -1`) spaxels that also satisfy it. -/
def cexRows : List SpaxelRow :=
  [⟨1, 0, ⟨30, 1⟩⟩, ⟨1, 0, ⟨0, 1⟩⟩, ⟨1, 0, ⟨0, 1⟩⟩, ⟨1, 0, ⟨0, 1⟩⟩,
   ⟨1, -1, ⟨30, 1⟩⟩, ⟨1, -1, ⟨30, 1⟩⟩, ⟨1, -1, ⟨30, 1⟩⟩]

/-- A group of 100 good spaxels of which `nsat` satisfy `value > 25`. -/
def exampleRows (nsat : Nat) : List SpaxelRow :=
  List.replicate nsat ⟨1, 0, ⟨30, 1⟩⟩ ++ List.replicate (100 - nsat) ⟨1, 0, ⟨0, 1⟩⟩

/-! ## C10 — `doQuery` -/

/-- Outcome of `q.run(...)` inside `doQuery`: a result, a `TypeError`
(message), or an exception of any other class. -/
inductive RunOutcome (R : Type) where
  | ok (r : R)
  | typeErr (msg : String)
  | raised (e : String)

/-- Embedding of `doQuery` (query.py lines 44-68): the built `Query` is run;
a `TypeError` is caught, a warning emitted and `None` returned as results;
the pair `(q, res)` is returned.  Result: the pair plus whether the warning
fired; any other exception propagates. -/
def doQueryModel {Q R : Type} (q : Q) (run : RunOutcome R) :
    Except String (Q × Option R × Bool) :=
  match run with
  | .ok r => .ok (q, some r, false)
  | .typeErr _ => .ok (q, none, true)
  | .raised e => .error e

/-- A query state already containing the cube table but no DAP `file`
table, used as witness input for the pipeline policy. -/
def pipeStExample : PipeQueryState :=
  { fromClause := "mangadatadb.cube JOIN mangadatadb.ifudesign ON ..."
    stmtText := "SELECT mangadatadb.cube.mangaid FROM mangadatadb.cube JOIN mangadatadb.ifudesign"
    drpJoined := false, dapJoined := false
    drpFilterPk := none, dapFilterPk := none }

/-!
# Theorems
-/

/-- C1: the claim says every return type's default-field list contains
`cube.mangaid`/`cube.plateifu` regardless of a caller override, and that
`spaxel` additionally contains the two coordinate fields.  Evaluating the
embedded code: for `return_type='spaxel'` with no override the defaults are
only the two identifiers — no `spaxelprop.x`/`spaxelprop.y` (the `spaxel`
branch of `_set_defaultparams` is `pass`, contradicting its own docstring
"Spaxel - plateifu/mangaid, x, y, bintype, template"), and the DAP
adjustment of `_set_query_parameters` does not fire because no requested
parameter lives in a spaxelprop table; for `return_type='maps'` with
override `['nsa.z']` the identifiers are absent (`defaults =
self.default_params or [...]` replaces rather than extends), contradicting
the class docstring "The object plateifu or mangaid is always returned by
default". -/
theorem setDefaultparams_bug_eval :
    setDefaultparams (some "spaxel") none = .ok ["cube.mangaid", "cube.plateifu"]
  ∧ (adjustDapDefaults ["cube.mangaid", "cube.plateifu"]
        ["cube.mangaid", "cube.plateifu"]).2 = ["cube.mangaid", "cube.plateifu"]
  ∧ "spaxelprop.x" ∉ ["cube.mangaid", "cube.plateifu"]
  ∧ "spaxelprop.y" ∉ ["cube.mangaid", "cube.plateifu"]
  ∧ setDefaultparams (some "maps") (some ["nsa.z"]) =
      .ok ["nsa.z", "bintype.name", "template.name"]
  ∧ "cube.mangaid" ∉ ["nsa.z", "bintype.name", "template.name"]
  ∧ "cube.plateifu" ∉ ["nsa.z", "bintype.name", "template.name"] := by
  exact ⟨rfl, by decide, by decide, by decide, rfl, by decide, by decide⟩

/-- C2: with no explicit window requested (`start = end = None`), a total
count above the threshold (and `return_all = False`) collapses the served
window to `[0, limit)` with served count `limit` and a truncation warning;
`return_all = True` removes the window entirely regardless of the
threshold; otherwise the full set is returned unwindowed. -/
theorem sliceQuery_no_window_policy (tc thr lim : Int) (ra : Bool) :
    (tc > thr ∧ ra = false →
      sliceQuery none none tc thr lim ra =
        ⟨some 0, some lim, lim, true, false, false⟩)
  ∧ (ra = true →
      sliceQuery none none tc thr lim ra = ⟨none, none, tc, false, true, false⟩)
  ∧ (tc ≤ thr ∧ ra = false →
      sliceQuery none none tc thr lim ra = ⟨none, none, tc, false, false, false⟩) := by
  refine ⟨fun h => ?_, fun h => ?_, fun h => ?_⟩
  · obtain ⟨h1, h2⟩ := h
    subst h2
    simp [sliceQuery, truthy, h1]
  · subst h
    simp [sliceQuery, truthy]
  · obtain ⟨h1, h2⟩ := h
    subst h2
    simp [sliceQuery, truthy, not_lt.2 h1]

/-- Witness for C2 at the spec's concrete input: `totalcount = 5000`,
`count_threshold = 1000`, `limit = 100`, `return_all = False` yields the
window `[0, 100)` with served count 100 and the truncation warning. -/
theorem sliceQuery_no_window_policy_witness :
    sliceQuery none none 5000 1000 100 false =
      ⟨some 0, some 100, 100, true, false, false⟩ :=
  (sliceQuery_no_window_policy 5000 1000 100 false).1 ⟨by decide, rfl⟩

/-- C3 counterexample: the claim says any explicit `[start, end)` window
(start ≥ 0, end > start, return_all False) is honored exactly with served
count `end - start`.  The code refutes it: `start = 0` is falsy in Python
(`if start and end`), so the request `[0, 50)` against 5000 rows collapses
to `[0, 100)` with count 100; a window wider than the threshold
(`[10, 2000)`) is clamped the same way; and `[0, 50)` against 500 rows is
sliced but records count 500, not 50. -/
theorem sliceQuery_explicit_window_cex :
    sliceQuery (some 0) (some 50) 5000 1000 100 false =
        ⟨some 0, some 100, 100, true, false, false⟩
  ∧ (sliceQuery (some 0) (some 50) 5000 1000 100 false).qend ≠ some 50
  ∧ (sliceQuery (some 0) (some 50) 5000 1000 100 false).count ≠ 50
  ∧ sliceQuery (some 10) (some 2000) 5000 1000 100 false =
        ⟨some 0, some 100, 100, true, false, false⟩
  ∧ (sliceQuery (some 10) (some 2000) 5000 1000 100 false).qend ≠ some 2000
  ∧ (sliceQuery (some 0) (some 50) 500 1000 100 false).count ≠ 50 := by decide

/-- C3 amended: an explicit window is honored exactly — with served count
`end - start` and the subset warning — when `start ≥ 1`, `end > start`,
`return_all` is False and the window size does not exceed the threshold. -/
theorem sliceQuery_explicit_window_amended (s e tc thr lim : Int)
    (hs : 1 ≤ s) (hse : s < e) (hth : e - s ≤ thr) :
    sliceQuery (some s) (some e) tc thr lim false =
      ⟨some s, some e, e - s, false, false, true⟩ := by
  have hs0 : s ≠ 0 := by omega
  have he0 : e ≠ 0 := by omega
  simp [sliceQuery, truthy, hs0, he0, not_lt.2 hth]

/-- Witness for the amended C3: the window `[10, 60)` against 5000 rows is
served exactly, with count 50. -/
theorem sliceQuery_explicit_window_amended_witness :
    sliceQuery (some 10) (some 60) 5000 1000 100 false =
      ⟨some 10, some 60, 50, false, false, true⟩ := by
  simpa using
    sliceQuery_explicit_window_amended 10 60 5000 1000 100 (by decide) (by decide) (by decide)

/-- Helper: bumping `n_run` does not change the lookup key of a record. -/
theorem keyMatches_bump (r : HistoryRecord) (sql release : String) :
    keyMatches { r with n_run := r.n_run + 1 } sql release = keyMatches r sql release := rfl

/-- Helper: the insert-or-increment map is the identity on a table with no
record for the key. -/
theorem map_bump_of_no_match (db : List HistoryRecord) (sql release : String)
    (h : ∀ r ∈ db, keyMatches r sql release = false) :
    db.map (fun r => if keyMatches r sql release then { r with n_run := r.n_run + 1 } else r)
      = db := by
  induction db with
  | nil => rfl
  | cons a l ih =>
    simp only [List.map_cons, h a (by simp), ih (fun r hr => h r (by simp [hr]))]
    simp

/-- C5: per local execution the insert-or-increment over the history table
keyed by compiled SQL text and release.  Part 1: when no record for the key
exists, the first execution inserts one with `n_run = 1` and the
immediately following execution raises it to exactly 2, while every
pre-existing record survives untouched and nothing is deleted.  Part 2: in
general an existing record's `n_run` is incremented by exactly 1 and the
table's length is unchanged.  Part 3: the `check_only` lookup used for
count short-circuiting writes nothing. -/
theorem checkHistory_run_counter (db : List HistoryRecord)
    (sql release sf ret : String) (tc1 tc2 : Option Int) :
    ((db.filter (fun r => keyMatches r sql release)) = [] →
      ∃ db1 db2,
        checkHistory db sql release sf ret tc1 false = .ok db1
      ∧ checkHistory db1 sql release sf ret tc2 false = .ok db2
      ∧ db1.filter (fun r => keyMatches r sql release) = [⟨sql, release, sf, tc1, 1, ret⟩]
      ∧ db2.filter (fun r => keyMatches r sql release) = [⟨sql, release, sf, tc1, 2, ret⟩]
      ∧ (∀ r ∈ db, r ∈ db1)
      ∧ (∀ r ∈ db, r ∈ db2)
      ∧ db1.length = db.length + 1
      ∧ db2.length = db.length + 1)
  ∧ (∀ r0, (db.filter (fun r => keyMatches r sql release)) = [r0] →
      ∃ db2,
        checkHistory db sql release sf ret tc2 false = .ok db2
      ∧ db2.filter (fun r => keyMatches r sql release) = [{ r0 with n_run := r0.n_run + 1 }]
      ∧ db2.length = db.length
      ∧ (∀ r ∈ db, keyMatches r sql release = false → r ∈ db2))
  ∧ ((db.filter (fun r => keyMatches r sql release)) = [] →
      checkHistory db sql release sf ret tc1 true = .ok db) := by
  refine ⟨fun habsent => ?_, fun r0 hpresent => ?_, fun habsent => ?_⟩
  · have hmem : ∀ r ∈ db, keyMatches r sql release = false := by
      intro r hr
      simpa using List.filter_eq_nil_iff.mp habsent r hr
    have hkey1 : keyMatches ⟨sql, release, sf, tc1, 1, ret⟩ sql release = true := by
      simp [keyMatches]
    have h1 : checkHistory db sql release sf ret tc1 false =
        .ok (db ++ [⟨sql, release, sf, tc1, 1, ret⟩]) := by
      simp [checkHistory, oneOrNone, habsent]
    have hfilter1 : (db ++ [(⟨sql, release, sf, tc1, 1, ret⟩ : HistoryRecord)]).filter
        (fun r => keyMatches r sql release) = [(⟨sql, release, sf, tc1, 1, ret⟩ : HistoryRecord)] := by
      simp [List.filter_append, habsent, hkey1]
    have h2 : checkHistory (db ++ [(⟨sql, release, sf, tc1, 1, ret⟩ : HistoryRecord)])
        sql release sf ret tc2 false =
        .ok (db ++ [(⟨sql, release, sf, tc1, 2, ret⟩ : HistoryRecord)]) := by
      simp [checkHistory, oneOrNone, hfilter1, List.map_append,
        map_bump_of_no_match db sql release hmem, hkey1]
    refine ⟨db ++ [(⟨sql, release, sf, tc1, 1, ret⟩ : HistoryRecord)],
      db ++ [(⟨sql, release, sf, tc1, 2, ret⟩ : HistoryRecord)],
      h1, h2, hfilter1, ?_, ?_, ?_, ?_, ?_⟩
    · have hkey2 : keyMatches ⟨sql, release, sf, tc1, 2, ret⟩ sql release = true := by
        simp [keyMatches]
      simp [List.filter_append, habsent, hkey2]
    · intro r hr; simp [hr]
    · intro r hr; simp [hr]
    · simp
    · simp
  · have hr0 : r0 ∈ db ∧ keyMatches r0 sql release = true := by
      have : r0 ∈ db.filter (fun r => keyMatches r sql release) := by
        rw [hpresent]; simp
      exact ⟨(List.mem_filter.mp this).1, (List.mem_filter.mp this).2⟩
    refine ⟨db.map (fun r =>
        if keyMatches r sql release then { r with n_run := r.n_run + 1 } else r),
      ?_, ?_, ?_, ?_⟩
    · simp [checkHistory, oneOrNone, hpresent]
    · rw [List.filter_map]
      have hcomp : ((fun r => keyMatches r sql release) ∘ (fun r =>
          if keyMatches r sql release then { r with n_run := r.n_run + 1 } else r)) =
          (fun r => keyMatches r sql release) := by
        funext r
        by_cases h : keyMatches r sql release = true <;> simp [h, keyMatches_bump]
      rw [hcomp, hpresent]
      simp [hr0.2]
    · simp
    · intro r hr hne
      refine List.mem_map.mpr ⟨r, hr, ?_⟩
      simp [hne]
  · have h0 : oneOrNone db sql release = .ok none := by
      simp [oneOrNone, habsent]
    simp [checkHistory, h0]


/-- Witness for C5: starting from an empty history table, the first
execution of a compiled text inserts its record with `n_run = 1` and the
second raises it to exactly 2. -/
theorem checkHistory_run_counter_witness :
    ∃ db1 db2,
      checkHistory [] "SELECT cube.mangaid FROM cube" "MPL-7" "nsa.z<0.1" "cube.ra"
        (some 42) false = .ok db1
    ∧ checkHistory db1 "SELECT cube.mangaid FROM cube" "MPL-7" "nsa.z<0.1" "cube.ra"
        (some 42) false = .ok db2
    ∧ db1.filter (fun r => keyMatches r "SELECT cube.mangaid FROM cube" "MPL-7") =
        [⟨"SELECT cube.mangaid FROM cube", "MPL-7", "nsa.z<0.1", some 42, 1, "cube.ra"⟩]
    ∧ db2.filter (fun r => keyMatches r "SELECT cube.mangaid FROM cube" "MPL-7") =
        [⟨"SELECT cube.mangaid FROM cube", "MPL-7", "nsa.z<0.1", some 42, 2, "cube.ra"⟩]
    ∧ (∀ r ∈ ([] : List HistoryRecord), r ∈ db1)
    ∧ (∀ r ∈ ([] : List HistoryRecord), r ∈ db2)
    ∧ db1.length = ([] : List HistoryRecord).length + 1
    ∧ db2.length = ([] : List HistoryRecord).length + 1 :=
  (checkHistory_run_counter [] "SELECT cube.mangaid FROM cube" "MPL-7" "nsa.z<0.1"
    "cube.ra" (some 42) (some 42)).1 rfl

/-- C6: a pipeline's equality version filter (and its aliased join) is
attached if and only if that pipeline's table — `cube` for DRP, `file` for
DAP — is mentioned in the compiled query (the code's presence test:
`_table_in_query(name) or name in str(query.statement.compile())`); an
absent table silently skips that filter, and `_add_pipeline` is a total
function, so compilation does not fail. -/
theorem addPipeline_version_filter_policy (drpPk dapPk : Nat) (st : PipeQueryState)
    (hd : st.drpFilterPk = none) (ha : st.dapFilterPk = none) :
    ((addPipeline drpPk dapPk st).drpFilterPk = some drpPk ↔
      pipeTableMentioned st "drp" = true)
  ∧ ((addPipeline drpPk dapPk st).drpFilterPk = none ↔
      pipeTableMentioned st "drp" = false)
  ∧ ((addPipeline drpPk dapPk st).drpJoined = (st.drpJoined || pipeTableMentioned st "drp"))
  ∧ ((addPipeline drpPk dapPk st).dapFilterPk = some dapPk ↔
      pipeTableMentioned st "dap" = true)
  ∧ ((addPipeline drpPk dapPk st).dapFilterPk = none ↔
      pipeTableMentioned st "dap" = false)
  ∧ ((addPipeline drpPk dapPk st).dapJoined = (st.dapJoined || pipeTableMentioned st "dap")) := by
  cases h1 : pipeTableMentioned st "drp" <;> cases h2 : pipeTableMentioned st "dap" <;>
    simp [addPipeline, getPipeInfo, h1, h2, hd, ha]

/-- Witness for C6: a compiled join containing the cube table but not the
DAP file table receives the DRP version filter and silently skips the DAP
one. -/
theorem addPipeline_version_filter_policy_witness :
    (addPipeline 3 7 pipeStExample).drpFilterPk = some 3
  ∧ (addPipeline 3 7 pipeStExample).dapFilterPk = none := by
  have h := addPipeline_version_filter_policy 3 7 pipeStExample rfl rfl
  exact ⟨h.1.mpr (by decide), (h.2.2.2.2.1).mpr (by decide)⟩

/-- C7: a non-string `search_filter` is rejected up front as a usage error,
with a result independent of the parser (so no parsing happens); and for a
string the boolean grammar rejects, a syntax error embedding the parser's
own message is raised; in both cases no parsed predicate is produced. -/
theorem parseSqlString_failure_policy (m : List (List Char × List Char))
    (p1 p2 : String → Except String ParsedFilter) (d s e : String) :
    (parseSqlString m p1 (.nonstring d) = .error usageErrMsg)
  ∧ (parseSqlString m p1 (.nonstring d) = parseSqlString m p2 (.nonstring d))
  ∧ (p1 (String.mk (checkShortcutsInFilter m s.data)) = .error e →
      parseSqlString m p1 (.str s) = .error (syntaxErrPrefix ++ e)
    ∧ ∀ pr, parseSqlString m p1 (.str s) ≠ .ok pr) := by
  refine ⟨rfl, rfl, fun h => ⟨?_, fun pr => ?_⟩⟩
  · simp [parseSqlString, h]
  · simp [parseSqlString, h]

/-- Witness for C7: the always-failing parser on a concrete malformed
filter yields the wrapped syntax error. -/
theorem parseSqlString_failure_policy_witness :
    parseSqlString [] failParse (.str "nsa.z < (0.1") =
      .error (syntaxErrPrefix ++ "Expected end of text at position 7") :=
  ((parseSqlString_failure_policy [] failParse failParse "x" "nsa.z < (0.1"
    "Expected end of text at position 7").2.2 rfl).1

/-- C8: in auto mode a connectivity-class (`MarvinError`) failure of the
local setup triggers exactly one fallback to remote (whose own failure then
propagates, with no retry); with a working local store no fallback occurs;
in local and remote modes errors propagate without fallback; and an error
of any class raised by the local compilation stage (`_init_local_query`,
after `_set_mma`) propagates without any fallback. -/
theorem setMma_auto_fallback_policy (u d : Bool) (e : PyErr) :
    (setMma ⟨false, true⟩ "auto" = .ok ⟨"remote", some "api", true⟩)
  ∧ (setMma ⟨true, u⟩ "auto" = .ok ⟨"local", some "db", false⟩)
  ∧ (setMma ⟨false, false⟩ "auto" =
      .error (.marvin "No URL Map found.  Cannot make remote query calls!"))
  ∧ (setMma ⟨false, u⟩ "local" =
      .error (.marvin "No local database found.  Query cannot be run in local mode"))
  ∧ (setMma ⟨d, false⟩ "remote" =
      .error (.marvin "No URL Map found.  Cannot make remote query calls!"))
  ∧ (setMma ⟨d, true⟩ "remote" = .ok ⟨"remote", some "api", false⟩)
  ∧ (queryInit ⟨true, u⟩ "auto" (.error e) = .error e)
  ∧ (queryInit ⟨true, u⟩ "local" (.error e) = .error e)
  ∧ (queryInit ⟨false, true⟩ "auto" (.error e) = .ok ⟨"remote", some "api", true⟩) :=
  ⟨rfl, rfl, rfl, rfl, rfl, rfl, rfl, rfl, rfl⟩

/-- C10: `doQuery` returns the pair `(query, results)`: a `TypeError`
raised while running the built query is caught, a warning is emitted and
the `Query` instance is returned paired with `None` instead of the
exception propagating; a successful run returns the instance paired with
its results. -/
theorem doQuery_typeerror_policy {Q R : Type} (q : Q) (msg : String) (r : R) :
    doQueryModel q (RunOutcome.typeErr msg : RunOutcome R) = .ok (q, none, true)
  ∧ doQueryModel q (RunOutcome.ok r) = .ok (q, some r, false) :=
  ⟨rfl, rfl⟩

/-- Helper: flattening the tokenization recovers the text. -/
theorem flattenToks_tokenizeAux (s : List Char) : flattenToks (tokenizeAux s) = s := by
  induction s with
  | nil => rfl
  | cons c cs ih =>
    cases hc : isWordChar c with
    | false => simp [tokenizeAux, hc, flattenToks, ih]
    | true =>
      cases h : tokenizeAux cs with
      | nil =>
        rw [h] at ih
        simp [tokenizeAux, hc, h, flattenToks]
        simpa [flattenToks] using ih
      | cons t ts =>
        cases t with
        | word w =>
          rw [h] at ih
          simp [tokenizeAux, hc, h, flattenToks]
          simpa [flattenToks] using ih
        | sep d =>
          rw [h] at ih
          simp [tokenizeAux, hc, h, flattenToks]
          simpa [flattenToks] using ih

/-- Helper: `startsOk` is preserved by appending a `startsOk` list. -/
theorem startsOk_append {A B : List Tok} (hA : startsOk A) (hB : startsOk B) :
    startsOk (A ++ B) := by
  cases A with
  | nil => simpa using hB
  | cons t ts =>
    cases t with
    | word w => exact absurd hA (by simp [startsOk])
    | sep c => simp [startsOk]

/-- Helper: appending canonical token lists with a safe junction stays
canonical. -/
theorem canon_append {A B : List Tok} (hA : Canon A) (hB : Canon B) (hsB : startsOk B) :
    Canon (A ++ B) := by
  induction hA with
  | nil => simpa using hB
  | sep hc _ ih => exact Canon.sep hc ih
  | @word w ts hw hwc hs _ ih =>
    refine Canon.word hw hwc ?_ ih
    exact startsOk_append hs hsB

/-- Helper: tokenization always produces a canonical token list. -/
theorem canon_tokenizeAux (s : List Char) : Canon (tokenizeAux s) := by
  induction s with
  | nil => exact Canon.nil
  | cons c cs ih =>
    cases hc : isWordChar c with
    | false =>
      simp only [tokenizeAux, hc, Bool.false_eq_true, if_false]
      exact Canon.sep hc ih
    | true =>
      cases h : tokenizeAux cs with
      | nil =>
        simp only [tokenizeAux, hc, if_true, h]
        exact Canon.word (by simp) (by intro x hx; simp at hx; subst hx; exact hc)
          (by simp [startsOk]) Canon.nil
      | cons t ts =>
        rw [h] at ih
        cases t with
        | word w =>
          simp only [tokenizeAux, hc, if_true, h]
          cases ih with
          | word hw hwc hs hts =>
            refine Canon.word (by simp) ?_ hs hts
            intro x hx
            rcases List.mem_cons.mp hx with hx1 | hx2
            · subst hx1; exact hc
            · exact hwc x hx2
        | sep d =>
          simp only [tokenizeAux, hc, if_true, h]
          exact Canon.word (by simp) (by intro x hx; simp at hx; subst hx; exact hc)
            (by simp [startsOk]) ih

/-- Helper: a word character prepended to text whose tokenization starts
with a word token extends that token. -/
theorem tokenizeAux_cons_word {c : Char} {cs w : List Char} {ts : List Tok}
    (hc : isWordChar c = true) (h : tokenizeAux cs = .word w :: ts) :
    tokenizeAux (c :: cs) = .word (c :: w) :: ts := by
  simp only [tokenizeAux, hc, if_true, h]

/-- Helper: tokenizing a nonempty word-character run followed by text whose
tokenization does not start with a word yields that run as one token. -/
theorem tokenizeAux_word_append {w rest : List Char} {ts : List Tok}
    (hw : w ≠ []) (hwc : ∀ c ∈ w, isWordChar c = true)
    (hrest : tokenizeAux rest = ts) (hts : startsOk ts) :
    tokenizeAux (w ++ rest) = .word w :: ts := by
  induction w with
  | nil => exact absurd rfl hw
  | cons a w2 ih =>
    cases w2 with
    | nil =>
      have ha := hwc a (by simp)
      have hstep : ([a] ++ rest : List Char) = a :: rest := rfl
      rw [hstep]
      simp only [tokenizeAux, ha, if_true, hrest]
      cases ts with
      | nil => rfl
      | cons t ts2 =>
        cases t with
        | word v => exact absurd hts (by simp [startsOk])
        | sep c => rfl
    | cons b w3 =>
      have ha := hwc a (by simp)
      have ih2 := ih (by simp) (fun c hc => hwc c (by simp [List.mem_cons] at hc ⊢; tauto))
      exact tokenizeAux_cons_word ha ih2

/-- Helper: tokenizing the flattening of a canonical token list recovers it. -/
theorem tokenizeAux_flattenToks {ts : List Tok} (h : Canon ts) :
    tokenizeAux (flattenToks ts) = ts := by
  induction h with
  | nil => rfl
  | @sep c ts2 hc _ ih => simp [flattenToks, tokenizeAux, hc, ih]
  | @word w ts2 hw hwc hs _ ih =>
    simp only [flattenToks]
    exact tokenizeAux_word_append hw hwc ih hs

/-- Helper: substitution does not create a leading word token. -/
theorem startsOk_substToks (key repl : List Char) {ts : List Tok} (h : startsOk ts) :
    startsOk (substToks key repl ts) := by
  cases ts with
  | nil => simp [substToks, startsOk]
  | cons t ts2 =>
    cases t with
    | word w => exact absurd h (by simp [startsOk])
    | sep c => simp [substToks, startsOk]

/-- Helper: substitution preserves canonicity. -/
theorem canon_substToks (key repl : List Char) {ts : List Tok} (h : Canon ts) :
    Canon (substToks key repl ts) := by
  induction h with
  | nil => exact Canon.nil
  | @sep c ts2 hc _ ih =>
    simp only [substToks]
    exact Canon.sep hc ih
  | @word w ts2 hw hwc hs _ ih =>
    by_cases hk : w = key
    · simp only [substToks, if_pos hk]
      exact canon_append (canon_tokenizeAux repl) ih (startsOk_substToks key repl hs)
    · simp only [substToks, if_neg hk, List.singleton_append]
      exact Canon.word hw hwc (startsOk_substToks key repl hs) ih

/-- Helper: tokenization of the substituted text is substitution on tokens. -/
theorem tokenizeAux_substWord (key repl s : List Char) :
    tokenizeAux (substWord key repl s) = substToks key repl (tokenizeAux s) :=
  tokenizeAux_flattenToks (canon_substToks key repl (canon_tokenizeAux s))

/-- Helper: word occurrence distributes over append. -/
theorem wordOccurs_append (key : List Char) (A B : List Tok) :
    wordOccurs key (A ++ B) = (wordOccurs key A || wordOccurs key B) := by
  induction A with
  | nil => simp [wordOccurs]
  | cons t ts ih => cases t <;> simp [wordOccurs, ih, Bool.or_assoc]

/-- Helper: after substituting a key whose replacement does not contain it,
the key no longer occurs as a word. -/
theorem wordOccurs_substToks_self {key repl : List Char}
    (hrepl : wordOccurs key (tokenizeAux repl) = false) (ts : List Tok) :
    wordOccurs key (substToks key repl ts) = false := by
  induction ts with
  | nil => rfl
  | cons t ts ih =>
    cases t with
    | sep c => simpa [substToks, wordOccurs] using ih
    | word w =>
      by_cases hk : w = key
      · simp [substToks, if_pos hk, wordOccurs_append, hrepl, ih]
      · simp [substToks, if_neg hk, wordOccurs, hk, ih]

/-- Helper: substitution of an absent key is the identity. -/
theorem substToks_of_not_occurs {key repl : List Char} {ts : List Tok}
    (h : wordOccurs key ts = false) : substToks key repl ts = ts := by
  induction ts with
  | nil => rfl
  | cons t ts ih =>
    cases t with
    | sep c =>
      simp only [wordOccurs] at h
      simp [substToks, ih h]
    | word w =>
      simp only [wordOccurs, Bool.or_eq_false_iff, beq_eq_false_iff_ne, ne_eq] at h
      simp [substToks, if_neg h.1, ih h.2]

/-- Helper: substituting one key cannot introduce a word occurrence of
another absent key, provided the replacement does not contain it. -/
theorem wordOccurs_substToks_other {k key2 repl2 : List Char} {ts : List Tok}
    (hts : wordOccurs k ts = false)
    (hrepl : wordOccurs k (tokenizeAux repl2) = false) :
    wordOccurs k (substToks key2 repl2 ts) = false := by
  induction ts with
  | nil => rfl
  | cons t ts ih =>
    cases t with
    | sep c =>
      simp only [wordOccurs] at hts
      simpa [substToks, wordOccurs] using ih hts
    | word w =>
      simp only [wordOccurs, Bool.or_eq_false_iff, beq_eq_false_iff_ne, ne_eq] at hts
      by_cases hk : w = key2
      · simp [substToks, if_pos hk, wordOccurs_append, hrepl, ih hts.2]
      · simp [substToks, if_neg hk, wordOccurs, hts.1, ih hts.2]

/-- Helper: a list starts with itself followed by anything. -/
theorem startsWithChars_self_append (k post : List Char) :
    startsWithChars (k ++ post) k = true := by
  induction k with
  | nil => cases post <;> simp [startsWithChars]
  | cons a k2 ih => simp [startsWithChars, ih]

/-- Helper: a substring decomposition makes `hasSub` true. -/
theorem hasSub_of_parts (pre key post : List Char) :
    hasSub (pre ++ key ++ post) key = true := by
  induction pre with
  | nil =>
    simp only [List.nil_append]
    cases key with
    | nil => cases post <;> simp [hasSub, startsWithChars]
    | cons a ks =>
      cases hkp : (a :: ks) ++ post with
      | nil => simp at hkp
      | cons c cs =>
        have h1 : startsWithChars ((a :: ks) ++ post) (a :: ks) = true :=
          startsWithChars_self_append (a :: ks) post
        rw [hkp] at h1
        simp [hasSub, h1]
  | cons c pre2 ih =>
    have ih2 : hasSub (pre2 ++ (key ++ post)) key = true := by
      simpa [List.append_assoc] using ih
    simp [hasSub, ih2, List.append_assoc]

/-- Helper: a word occurrence yields a substring decomposition of the
flattened text. -/
theorem exists_parts_of_wordOccurs {key : List Char} {ts : List Tok}
    (h : wordOccurs key ts = true) :
    ∃ pre post, flattenToks ts = pre ++ key ++ post := by
  induction ts with
  | nil => simp [wordOccurs] at h
  | cons t ts ih =>
    cases t with
    | sep c =>
      simp only [wordOccurs] at h
      obtain ⟨pre, post, hp⟩ := ih h
      exact ⟨c :: pre, post, by simp [flattenToks, hp]⟩
    | word w =>
      rcases (by simpa [wordOccurs] using h : w = key ∨ wordOccurs key ts = true) with h1 | h2
      · exact ⟨[], flattenToks ts, by simp [flattenToks, h1]⟩
      · obtain ⟨pre, post, hp⟩ := ih h2
        exact ⟨w ++ pre, post, by simp [flattenToks, hp]⟩

/-- Helper: a whole-word occurrence implies the Python substring guard. -/
theorem hasSub_of_wordOccurs {key s : List Char}
    (h : wordOccurs key (tokenizeAux s) = true) : hasSub s key = true := by
  obtain ⟨pre, post, hp⟩ := exists_parts_of_wordOccurs h
  rw [flattenToks_tokenizeAux] at hp
  rw [hp]
  exact hasSub_of_parts pre key post

/-- Helper: one loop iteration removes every whole-word occurrence of its
own key, provided the replacement value contains none. -/
theorem step_kills_own_key {kv : List Char × List Char} {s : List Char}
    (hrepl : wordOccurs kv.1 (tokenizeAux kv.2) = false) :
    wordOccurs kv.1 (tokenizeAux (shortcutStep s kv)) = false := by
  unfold shortcutStep
  by_cases hg : hasSub s kv.1 = true
  · rw [if_pos hg, tokenizeAux_substWord]
    exact wordOccurs_substToks_self hrepl _
  · rw [if_neg hg]
    cases hw : wordOccurs kv.1 (tokenizeAux s) with
    | false => rfl
    | true => exact absurd (hasSub_of_wordOccurs hw) hg

/-- Helper: one loop iteration cannot introduce a whole-word occurrence of
an absent key, provided its replacement value contains none. -/
theorem step_preserves_no_occurrence {k : List Char} {kv : List Char × List Char}
    {s : List Char}
    (hs : wordOccurs k (tokenizeAux s) = false)
    (hrepl : wordOccurs k (tokenizeAux kv.2) = false) :
    wordOccurs k (tokenizeAux (shortcutStep s kv)) = false := by
  unfold shortcutStep
  by_cases hg : hasSub s kv.1 = true
  · rw [if_pos hg, tokenizeAux_substWord]
    exact wordOccurs_substToks_other hs hrepl
  · rw [if_neg hg]
    exact hs

/-- Helper: the remaining loop iterations preserve key absence. -/
theorem foldl_preserves_no_occurrence {k : List Char}
    (m : List (List Char × List Char)) (s : List Char)
    (hs : wordOccurs k (tokenizeAux s) = false)
    (hm : ∀ kv ∈ m, wordOccurs k (tokenizeAux kv.2) = false) :
    wordOccurs k (tokenizeAux (m.foldl shortcutStep s)) = false := by
  induction m generalizing s with
  | nil => simpa using hs
  | cons kv0 rest ih =>
    exact ih (shortcutStep s kv0)
      (step_preserves_no_occurrence hs (hm kv0 (by simp)))
      (fun kv hkv => hm kv (by simp [hkv]))

/-- Helper: after the full substitution pass, no registered shortcut occurs
as a whole word. -/
theorem checkShortcuts_no_keys (m : List (List Char × List Char)) (s : List Char)
    (hvals : ∀ kv ∈ m, ∀ kv2 ∈ m, wordOccurs kv2.1 (tokenizeAux kv.2) = false) :
    ∀ kv ∈ m, wordOccurs kv.1 (tokenizeAux (checkShortcutsInFilter m s)) = false := by
  induction m generalizing s with
  | nil => intro kv h; simp at h
  | cons kv0 rest ih =>
    intro kv hkv
    rcases List.mem_cons.mp hkv with h1 | h2
    · rw [h1]
      exact foldl_preserves_no_occurrence rest (shortcutStep s kv0)
        (step_kills_own_key (hvals kv0 (by simp) kv0 (by simp)))
        (fun kv2 hk2 => hvals kv2 (by simp [hk2]) kv0 (by simp))
    · exact ih (shortcutStep s kv0)
        (fun a ha b hb => hvals a (by simp [ha]) b (by simp [hb])) kv h2

/-- Helper: the substitution pass is the identity on text containing no
registered shortcut as a whole word. -/
theorem checkShortcuts_id_of_no_keys (m : List (List Char × List Char)) (s : List Char)
    (h : ∀ kv ∈ m, wordOccurs kv.1 (tokenizeAux s) = false) :
    checkShortcutsInFilter m s = s := by
  induction m with
  | nil => rfl
  | cons kv0 rest ih =>
    have hstep : shortcutStep s kv0 = s := by
      unfold shortcutStep
      by_cases hg : hasSub s kv0.1 = true
      · rw [if_pos hg]
        unfold substWord
        rw [substToks_of_not_occurs (h kv0 (by simp)), flattenToks_tokenizeAux]
      · rw [if_neg hg]
    have hfold : checkShortcutsInFilter (kv0 :: rest) s =
        checkShortcutsInFilter rest (shortcutStep s kv0) := rfl
    rw [hfold, hstep]
    exact ih (fun kv hkv => h kv (by simp [hkv]))

/-- C4: shortcut substitution on the filter text is idempotent — for every
filter string, applying `_check_shortcuts_in_filter` twice yields the same
text as applying it once — for any well-formed shortcut catalog (word-only
keys whose canonical values contain no registered shortcut as a whole
word). -/
theorem checkShortcuts_idempotent (m : List (List Char × List Char)) (s : List Char)
    (hm : wfShortcuts m) :
    checkShortcutsInFilter m (checkShortcutsInFilter m s) = checkShortcutsInFilter m s :=
  checkShortcuts_id_of_no_keys m _ (checkShortcuts_no_keys m s hm.2)

/-- Witness for C4 on the concrete catalog entry
`haflux ↦ emline_gflux_ha_6564` and a concrete filter. -/
theorem checkShortcuts_idempotent_witness :
    checkShortcutsInFilter [("haflux".data, "emline_gflux_ha_6564".data)]
        (checkShortcutsInFilter [("haflux".data, "emline_gflux_ha_6564".data)]
          "haflux > 25 and haflux < 100".data) =
      checkShortcutsInFilter [("haflux".data, "emline_gflux_ha_6564".data)]
        "haflux > 25 and haflux < 100".data :=
  checkShortcuts_idempotent [("haflux".data, "emline_gflux_ha_6564".data)]
    "haflux > 25 and haflux < 100".data ⟨by decide, by decide⟩

/-- Helper: lookup in an association list built by pairing keys with a
function of the key. -/
theorem lookup_map_keys (l : List Nat) (f : Nat → Nat) (g : Nat) :
    List.lookup g (l.map (fun k => (k, f k))) = if g ∈ l then some (f g) else none := by
  induction l with
  | nil => simp [List.lookup]
  | cons a l ih =>
    by_cases hga : g = a
    · subst hga
      simp [List.lookup]
    · have hb : (g == a) = false := beq_eq_false_iff_ne.mpr hga
      simp [List.lookup, hb, hga, ih]

/-- Helper: a group key appears among the filtered rows exactly when its
per-group count is positive. -/
theorem mem_keys_iff_countIn_pos (rows : List SpaxelRow) (p : SpaxelRow → Bool) (g : Nat) :
    (g ∈ (rows.filter p).map (fun r => r.file_pk)) ↔ 0 < countIn rows p g := by
  unfold countIn
  constructor
  · intro hm
    obtain ⟨r, hrf, hrg⟩ := List.mem_map.mp hm
    obtain ⟨hrrows, hrp⟩ := List.mem_filter.mp hrf
    have hr : r ∈ rows.filter (fun r => p r && r.file_pk == g) :=
      List.mem_filter.mpr ⟨hrrows, by simp [hrp, hrg]⟩
    exact List.length_pos_of_mem hr
  · intro hlen
    obtain ⟨r, hr⟩ := List.exists_mem_of_length_pos hlen
    obtain ⟨hrrows, hpg⟩ := List.mem_filter.mp hr
    have h1 : p r = true ∧ r.file_pk = g := by simpa using hpg
    exact List.mem_map.mpr ⟨r, List.mem_filter.mpr ⟨hrrows, h1.1⟩, h1.2⟩

/-- Helper: semantics of the grouped count subqueries — a lookup returns
the per-group count exactly when it is positive. -/
theorem lookup_groupCounts (rows : List SpaxelRow) (p : SpaxelRow → Bool) (g : Nat) :
    List.lookup g (groupCounts rows p) =
      if 0 < countIn rows p g then some (countIn rows p g) else none := by
  unfold groupCounts
  rw [lookup_map_keys]
  have hcond : (g ∈ ((rows.filter p).map (fun r => r.file_pk)).dedup) ↔
      0 < countIn rows p g := by
    rw [List.mem_dedup]
    exact mem_keys_iff_countIn_pos rows p g
  by_cases h : 0 < countIn rows p g
  · rw [if_pos (hcond.mpr h), if_pos h]
  · rw [if_neg (fun hmem => h (hcond.mp hmem)), if_neg h]

/-- C9 counterexample: the claim (and spec §4.5) describe the second
subquery as counting rows "additionally" satisfying the inner condition,
i.e. among the rows not flagged invalid.  `_get_count_of` has no
invalid-flag filter, so on a group with 4 good spaxels (1 satisfying
`value > 25`) plus 3 invalid spaxels that also satisfy it, the code counts
`count2 = 4` and includes the group under `npergood(... > 25) >= 50`
(4 ≥ 0.5·4) while the claim's semantics counts `count2 = 1` and excludes
it (1 < 0.5·4). -/
theorem npergood_subquery_cex :
    npergoodIncluded false .gt ⟨25, 1⟩ .ge ⟨50, 1⟩ cexRows 1 = true
  ∧ specNpergoodIncluded .gt ⟨25, 1⟩ .ge ⟨50, 1⟩ cexRows 1 = false
  ∧ countIn cexRows (goodRow false) 1 = 4
  ∧ countIn cexRows (valPred .gt ⟨25, 1⟩) 1 = 4
  ∧ countIn cexRows (specValPred .gt ⟨25, 1⟩) 1 = 1 := by decide

/-- C9 amended: the rewritten query joins the two per-group count
subqueries on the group key — one counting per-element rows not flagged
invalid, one counting all rows satisfying the inner condition (regardless
of the invalid flag) — and filters on `count2 op2 (threshold2/100 ×
count1)`; a group is included iff both counts are positive and the
comparison holds; the main query is grouped by the non-per-element default
fields; consequently for `npergood(fieldA > 25) >= 20` a group with 100
good elements of which 30 satisfy the inner condition is included and one
with only 15 satisfying is excluded. -/
theorem npergood_rewrite_amended (isClean : Bool) (op1 op2 : CompOp) (t1 t2 : Frac)
    (rows : List SpaxelRow) (g : Nat) :
    (npergoodIncluded isClean op1 t1 op2 t2 rows g = true ↔
      0 < countIn rows (goodRow isClean) g ∧ 0 < countIn rows (valPred op1 t1) g ∧
      applyOpFrac op2 (Frac.ofCount (countIn rows (valPred op1 t1) g))
        (percentOf t2 (countIn rows (goodRow isClean) g)) = true)
  ∧ npergoodGroupParams ["cube.mangaid", "cube.plateifu", "spaxelprop.x", "spaxelprop.y",
      "bintype.name", "template.name"] =
      ["cube.mangaid", "cube.plateifu", "bintype.name", "template.name"]
  ∧ npergoodIncluded false .gt ⟨25, 1⟩ .ge ⟨20, 1⟩ (exampleRows 30) 1 = true
  ∧ npergoodIncluded false .gt ⟨25, 1⟩ .ge ⟨20, 1⟩ (exampleRows 15) 1 = false := by
  refine ⟨?_, by decide, by decide, by decide⟩
  unfold npergoodIncluded bincountSub valcountSub
  rw [lookup_groupCounts, lookup_groupCounts]
  by_cases h1 : 0 < countIn rows (goodRow isClean) g <;>
    by_cases h2 : 0 < countIn rows (valPred op1 t1) g <;>
      simp [h1, h2]
